import Mathlib

/-!
Verification development for the rustix socket-address boundary layer.

The development shallowly embeds three parts of the repository:

* the platform-conditional layout facts around `sockaddr_un` and the
  `offsetof_sun_path` helper (`src/imp/libc/net/mod.rs`);
* the socket-address codec (`read_sockaddr` / `write_sockaddr` /
  `encode_sockaddr_unix`) together with the address-family model.  The
  bodies of these functions live in modules that are referenced but not
  present in the excerpt, so they are modelled from the specification
  text (each such definition carries a `Modelled from the spec:` note);
* the thin fd-forwarding layer (`src/io/fd.rs`) and the
  `GetRandomFlags` bitset (`src/imp/libc/rand/types.rs`).

Machine integers are modelled as `Nat` with explicit `% 2 ^ w` where
overflow matters; byte buffers are `List Nat` whose entries are bytes.
-/

/-! ## Target platforms and the C layout of `sockaddr_un`

`offsetof_sun_path` in `src/imp/libc/net/mod.rs` builds a zero-filled
`libc::sockaddr_un` whose shape is selected by `cfg(target_os = ...)`:
on netbsd/macos/ios/freebsd/openbsd the struct is
`{ sun_len : u8, sun_family : u8, sun_path : [u8; 104] }`, on every other
target it is `{ sun_family : u16, sun_path : [u8; 108] }`.  We embed the
two field lists and the standard C struct-layout rule (each field is
placed at the next offset aligned to its alignment). -/

/-- The operating systems named by the `cfg` attributes in the source,
plus representatives of the `cfg(not(any(...)))` side. -/
inductive TargetOs where
  | netbsd | macos | ios | freebsd | openbsd
  | linux | android | fuchsia | emscripten | redox | wasi
deriving DecidableEq, Repr

/-- Whether `target_os` is in the five-OS list that selects the
BSD-style `sockaddr_un` (length byte + one-byte family). -/
def isBsdStyle : TargetOs → Bool
  | .netbsd => true
  | .macos => true
  | .ios => true
  | .freebsd => true
  | .openbsd => true
  | _ => false

/-- Field identifiers of `libc::sockaddr_un`. -/
inductive FieldId where
  | sun_len | sun_family | sun_path
deriving DecidableEq, Repr

/-- A C struct field: identifier, byte size, alignment requirement. -/
structure CField where
  fid : FieldId
  size : Nat
  align : Nat
deriving DecidableEq, Repr

/-- Round `o` up to the next multiple of `a` (C field placement). -/
def alignUp (o a : Nat) : Nat :=
  if a = 0 then o else a * ((o + a - 1) / a)

/-- The fields of `libc::sockaddr_un`, in declaration order, for the two
platform families distinguished by the source's `cfg` attributes.
`u8` has size/align 1, `u16` size/align 2, `[u8; N]` size `N` align 1. -/
def sockaddr_un_fields (bsd : Bool) : List CField :=
  if bsd then
    [⟨.sun_len, 1, 1⟩, ⟨.sun_family, 1, 1⟩, ⟨.sun_path, 104, 1⟩]
  else
    [⟨.sun_family, 2, 2⟩, ⟨.sun_path, 108, 1⟩]

/-- Offsets assigned to the fields by the C layout algorithm, starting
from byte offset `o`. -/
def fieldOffsetsFrom (o : Nat) : List CField → List (FieldId × Nat)
  | [] => []
  | f :: fs =>
    let fo := alignUp o f.align
    (f.fid, fo) :: fieldOffsetsFrom (fo + f.size) fs

/-- The byte offset of field `x` within a struct with field list `fs`. -/
def fieldOffset (fs : List CField) (x : FieldId) : Option Nat :=
  ((fieldOffsetsFrom 0 fs).find? (fun p => p.1 = x)).map (fun p => p.2)

/-- The byte size of field `x` within a struct with field list `fs`. -/
def fieldSize (fs : List CField) (x : FieldId) : Option Nat :=
  (fs.find? (fun f => f.fid = x)).map (fun f => f.size)

/-- Structural byte offset of `sun_path` for a platform family. -/
def sunPathOffsetB (bsd : Bool) : Nat :=
  (fieldOffset (sockaddr_un_fields bsd) .sun_path).getD 0

/-- Capacity (in bytes) of the `sun_path` array for a platform family:
the array length written in the source's struct initializer. -/
def pathCapacityB (bsd : Bool) : Nat :=
  (fieldSize (sockaddr_un_fields bsd) .sun_path).getD 0

/-- Structural byte offset of the `sun_family` field. -/
def familyOffsetB (bsd : Bool) : Option Nat :=
  fieldOffset (sockaddr_un_fields bsd) .sun_family

/-- Byte width of the `sun_family` field. -/
def familyWidthB (bsd : Bool) : Nat :=
  (fieldSize (sockaddr_un_fields bsd) .sun_family).getD 0

/-- First byte offset past the family field: the minimum number of bytes
needed before the family field can be read. -/
def famEnd (bsd : Bool) : Nat :=
  (familyOffsetB bsd).getD 0 + familyWidthB bsd

/-- Total size of `sockaddr_un` (end of last field, rounded up to the
struct's alignment, which is the maximum field alignment). -/
def sizeofSockaddrUn (bsd : Bool) : Nat :=
  let fs := sockaddr_un_fields bsd
  let last := (fieldOffsetsFrom 0 fs).foldl (fun acc p => max acc p.2) 0
  let lastEnd := (sunPathOffsetB bsd) + pathCapacityB bsd
  alignUp (max last lastEnd) (fs.foldl (fun acc f => max acc f.align) 1)

/-- Embedding of `offsetof_sun_path` from `src/imp/libc/net/mod.rs`: the
function instantiates a zero-filled `sockaddr_un` value `z` and returns
`(crate::as_ptr(&z.sun_path) as usize) - (crate::as_ptr(&z) as usize)`.
Addresses are machine words: the struct sits at address `base`, the path
field at `base` plus its structural offset, and both pointers are read
as `usize` (64-bit) values before the subtraction. -/
def offsetof_sun_path (os : TargetOs) (base : Nat) : Nat :=
  let pathAddr := (base + sunPathOffsetB (isBsdStyle os)) % 2 ^ 64
  let baseAddr := base % 2 ^ 64
  pathAddr - baseAddr

/-- `sun_path` offset of a concrete target. -/
def sunPathOffsetOf (os : TargetOs) : Nat := sunPathOffsetB (isBsdStyle os)

/-- `sun_path` capacity of a concrete target. -/
def pathCapacityOf (os : TargetOs) : Nat := pathCapacityB (isBsdStyle os)

/-- `sun_family` offset of a concrete target. -/
def familyOffsetOf (os : TargetOs) : Option Nat := familyOffsetB (isBsdStyle os)

/-! ## Address family model

Modelled from the spec: the `AddressFamily` enumeration and its mapping
to native integer constants live in `net/types.rs`, which is not part of
the excerpt.  Per the spec, the model is the closed set
{Unspecified, IPv4, IPv6, Unix-domain}, each variant mapped to the
platform's native `AF_*` constant; `family_of` maps a native integer to
a variant or to an explicit unknown outcome, and `native_value_of` is
its total inverse. -/

/-- The closed address-family enumeration. -/
inductive AddressFamily where
  | UNSPEC | INET | INET6 | UNIX
deriving DecidableEq, Repr

/-- A supported build target: the `target_os` plus the layout-constant
facts the codec consumes (spec §4.1): whether the abstract Unix-domain
namespace exists, whether the wire convention null-terminates
filesystem-path names, and the native `AF_INET6` constant.  `AF_UNSPEC`,
`AF_UNIX` and `AF_INET` are 0, 1 and 2 on every supported platform;
`AF_INET6` varies, and is a small constant distinct from the others. -/
structure Platform where
  os : TargetOs
  hasAbstract : Bool
  needsTerm : Bool
  af_inet6 : Nat
  af_inet6_gt : 2 < af_inet6
  af_inet6_lt : af_inet6 < 256

/-- Modelled from the spec: `native_value_of(Family) -> native_int`,
total on every supported variant. -/
def native_value_of (P : Platform) : AddressFamily → Nat
  | .UNSPEC => 0
  | .UNIX => 1
  | .INET => 2
  | .INET6 => P.af_inet6

/-- Modelled from the spec: `family_of(native_int) -> Family`, mapping
unmatched integers to an explicit unknown outcome (`none`). -/
def family_of (P : Platform) (n : Nat) : Option AddressFamily :=
  if n = 0 then some .UNSPEC
  else if n = 1 then some .UNIX
  else if n = 2 then some .INET
  else if n = P.af_inet6 then some .INET6
  else none

/-- A Linux-style platform instance (`AF_INET6 = 10`; abstract
namespace available; filesystem paths null-terminated on the wire). -/
def linuxP : Platform :=
  ⟨.linux, true, true, 10, by decide, by decide⟩

/-- A BSD-style platform instance (macOS: `AF_INET6 = 30`; no abstract
namespace; filesystem paths null-terminated on the wire). -/
def macosP : Platform :=
  ⟨.macos, false, true, 30, by decide, by decide⟩

/-! ## Typed address data model (spec §3) -/

/-- Modelled from the spec: a Unix-domain address is either a
filesystem-path name or an abstract name (the caller-supplied bytes of
an abstract name include the leading zero byte). -/
inductive SocketAddrUnix where
  | path (p : List Nat)
  | abstract (a : List Nat)
deriving DecidableEq, Repr

/-- Modelled from the spec: the tagged-union typed address. -/
inductive SocketAddr where
  | v4 (addr : List Nat) (port : Nat)
  | v6 (addr : List Nat) (port : Nat) (flowinfo : Nat) (scopeId : Nat)
  | unix (name : SocketAddrUnix)
  | unspec
deriving DecidableEq, Repr

/-- The error taxonomy of spec §7. -/
inductive CodecError where
  | truncation | capacity | invalidName | unsupported
deriving DecidableEq, Repr

/-- Result of a codec operation. -/
inductive CodecResult (α : Type) where
  | ok (a : α)
  | fail (e : CodecError)
deriving DecidableEq, Repr

/-! ## Byte-level helpers shared by the codec -/

/-- The `sun_path` capacity the codec uses for platform `P`. -/
def pathCapP (P : Platform) : Nat := pathCapacityB (isBsdStyle P.os)

/-- The `sun_path` offset the codec uses for platform `P`. -/
def pathOffsetP (P : Platform) : Nat := sunPathOffsetB (isBsdStyle P.os)

/-- Exact native size of `sockaddr_in` (2-byte family field or
len+family pair, 2-byte port, 4-byte address, 8 bytes of zero padding). -/
def sizeof_sockaddr_in : Nat := 16

/-- Exact native size of `sockaddr_in6` (family field, port, flow-info,
16-byte address, scope id). -/
def sizeof_sockaddr_in6 : Nat := 28

/-- Capacity of the scratch `SocketAddrStorage`: the platform's largest
native address structure (spec §3), computed from the layout constants. -/
def storageSize (bsd : Bool) : Nat :=
  max sizeof_sockaddr_in6 (sizeofSockaddrUn bsd)

/-- The bytes occupying offsets `0..2` of an encoded address: on
BSD-style targets a one-byte length prefix followed by the one-byte
family value, elsewhere the two-byte family value (host order, modelled
little-endian). -/
def famFieldBytes (bsd : Bool) (fam len : Nat) : List Nat :=
  if bsd then [len % 256, fam % 256] else [fam % 256, fam / 256 % 256]

/-- Read the native family value back from an encoded buffer. -/
def readFamB (bsd : Bool) (b : List Nat) : Nat :=
  if bsd then b.getD 1 0 else b.getD 0 0 + 256 * b.getD 1 0

/-- 16-bit value in network byte order. -/
def be16 (n : Nat) : List Nat := [n / 256 % 256, n % 256]

/-- 32-bit value in network byte order. -/
def be32 (n : Nat) : List Nat :=
  [n / 2 ^ 24 % 256, n / 2 ^ 16 % 256, n / 2 ^ 8 % 256, n % 256]

/-- Read a network-order 16-bit value at byte offset `o`. -/
def readBE16 (b : List Nat) (o : Nat) : Nat :=
  match b.drop o with
  | x :: y :: _ => x * 256 + y
  | _ => 0

/-- Read a network-order 32-bit value at byte offset `o`. -/
def readBE32 (b : List Nat) (o : Nat) : Nat :=
  match b.drop o with
  | x :: y :: z :: w :: _ => x * 2 ^ 24 + y * 2 ^ 16 + z * 2 ^ 8 + w
  | _ => 0

/-! ## Decoder

Modelled from the spec: `read_sockaddr` lives in `net/read_sockaddr.rs`,
which is not part of the excerpt.  The model follows spec §4.3 step by
step: an upfront bound against the buffer's true capacity (§4.3.4,
§8 truncation safety), the minimum-length check for the family field,
family dispatch through the family model, per-family exact-size checks,
and the Unix-domain path/abstract classification by leading zero byte
(with the trailing null terminator dropped only for filesystem-path
names, on platforms whose convention includes one). -/

/-- Drop the trailing null terminator of a filesystem-path region when
the platform's convention includes one and the last byte is null. -/
def dropTrailingNul (P : Platform) (r : List Nat) : List Nat :=
  if P.needsTerm then (if r.getLast? = some 0 then r.dropLast else r) else r

/-- Classify the (already clamped) `sun_path` region.  An empty region
is the abstract empty name on platforms with the abstract namespace; a
leading zero byte selects the abstract namespace, failing with
unsupported-feature where that namespace does not exist. -/
def decodeUnixRegion (P : Platform) (region : List Nat) :
    CodecResult SocketAddr :=
  match region with
  | [] =>
    if P.hasAbstract then .ok (.unix (.abstract []))
    else .ok (.unix (.path []))
  | b :: rest =>
    if b = 0 then
      if P.hasAbstract then .ok (.unix (.abstract (b :: rest)))
      else .fail .unsupported
    else .ok (.unix (.path (dropTrailingNul P (b :: rest))))

/-- Modelled from the spec: the decoder (`read_sockaddr`).  `buf` is the
raw buffer, `len` the caller/kernel-reported length. -/
def read_sockaddr (P : Platform) (buf : List Nat) (len : Nat) :
    CodecResult SocketAddr :=
  if buf.length < len then .fail .truncation
  else
    let b := buf.take len
    if len < famEnd (isBsdStyle P.os) then .fail .truncation
    else
      match family_of P (readFamB (isBsdStyle P.os) b) with
      | none => .ok .unspec
      | some .UNSPEC => .ok .unspec
      | some .UNIX =>
        if len < pathOffsetP P then .fail .truncation
        else decodeUnixRegion P ((b.drop (pathOffsetP P)).take (pathCapP P))
      | some .INET =>
        if len < sizeof_sockaddr_in then .fail .truncation
        else .ok (.v4 ((b.drop 4).take 4) (readBE16 b 2))
      | some .INET6 =>
        if len < sizeof_sockaddr_in6 then .fail .truncation
        else .ok (.v6 ((b.drop 8).take 16) (readBE16 b 2) (readBE32 b 4)
          (readBE32 b 24))

/-! ## Encoder

Modelled from the spec: `write_sockaddr` and `encode_sockaddr_unix`
live in `net/write_sockaddr.rs`, which is not part of the excerpt.  The
Unix-domain encoder is modelled operationally, as the ordered sequence
of byte writes it performs into a zero-filled structure, so that the
claim about failure ordering ("the length error is raised before any
path bytes are written") is about the write sequence itself. -/

/-- The wire bytes of a Unix-domain name: filesystem-path names get the
trailing null terminator exactly on platforms whose convention requires
it; abstract names are written verbatim with no terminator. -/
def pathBytesOf (P : Platform) : SocketAddrUnix → List Nat
  | .path p => p ++ (if P.needsTerm then [0] else [])
  | .abstract a => a

/-- The spec's length check: `name length + (1 if terminator needed
else 0)` must not exceed the path capacity. -/
def nameFits (P : Platform) : SocketAddrUnix → Bool
  | .path p =>
    decide (p.length + (if P.needsTerm then 1 else 0) ≤ pathCapP P)
  | .abstract a => decide (a.length ≤ pathCapP P)

/-- Consecutive `(offset, byte)` writes starting at offset `o`. -/
def pathWritesFrom (o : Nat) : List Nat → List (Nat × Nat)
  | [] => []
  | x :: xs => (o, x) :: pathWritesFrom (o + 1) xs

/-- Apply a sequence of `(offset, byte)` writes to a buffer. -/
def applyWrites (ws : List (Nat × Nat)) (b : List Nat) : List Nat :=
  ws.foldl (fun acc w => acc.set w.1 w.2) b

/-- Outcome of `encode_sockaddr_unix`: the ordered write sequence it
performed, the reported length out-value (left at its initial 0 on
failure), and the error, if any. -/
structure EncodeUnixOut where
  writes : List (Nat × Nat)
  lenOut : Nat
  err : Option CodecError
deriving DecidableEq, Repr

/-- Modelled from the spec: `encode_sockaddr_unix` (spec §4.4.3).  It
writes the family field, checks the name length against the path
capacity before writing any path byte, then writes the name's wire
bytes starting at the path offset; on BSD-style targets it finally
writes the one-byte length prefix to match the reported length.  On
failure the reported length stays unset (0). -/
def encode_sockaddr_unix (P : Platform) (n : SocketAddrUnix) :
    EncodeUnixOut :=
  let bsd := isBsdStyle P.os
  let famWrites : List (Nat × Nat) :=
    if bsd then [(1, 1)] else [(0, 1), (1, 0)]
  if nameFits P n then
    let pb := pathBytesOf P n
    let len := pathOffsetP P + pb.length
    let lenByteWrites : List (Nat × Nat) :=
      if bsd then [(0, len % 256)] else []
    ⟨famWrites ++ pathWritesFrom (pathOffsetP P) pb ++ lenByteWrites,
      len, none⟩
  else ⟨famWrites, 0, some .invalidName⟩

/-- Modelled from the spec: the encoder (`write_sockaddr`).  `cap` is
the destination buffer's capacity; the returned byte list is the encoded
structure, whose length is the reported length (guaranteed `≤ cap`). -/
def write_sockaddr (P : Platform) (cap : Nat) (a : SocketAddr) :
    CodecResult (List Nat) :=
  let bsd := isBsdStyle P.os
  match a with
  | .unspec =>
    .ok (famFieldBytes bsd (native_value_of P .UNSPEC) (famEnd bsd))
  | .v4 ad port =>
    if cap < sizeof_sockaddr_in then .fail .capacity
    else .ok (famFieldBytes bsd (native_value_of P .INET) sizeof_sockaddr_in
      ++ be16 port ++ ad ++ List.replicate 8 0)
  | .v6 ad port fl sc =>
    if cap < sizeof_sockaddr_in6 then .fail .capacity
    else .ok (famFieldBytes bsd (native_value_of P .INET6)
      sizeof_sockaddr_in6 ++ be16 port ++ be32 fl ++ ad ++ be32 sc)
  | .unix n =>
    let r := encode_sockaddr_unix P n
    match r.err with
    | some e => .fail e
    | none =>
      if cap < r.lenOut then .fail .capacity
      else .ok (applyWrites r.writes (List.replicate r.lenOut 0))

/-- A representable typed address (spec §3 invariants): byte entries are
bytes, the IPv4/IPv6 payloads have their fixed sizes and field widths,
filesystem-path names have no embedded null and fit in
`max_path_capacity - 1`, and abstract names exist only where the
platform has the namespace, carry their leading zero byte, and fit in
`max_path_capacity - 1`. -/
def representableB (P : Platform) : SocketAddr → Bool
  | .v4 ad port =>
    ad.length = 4 && ad.all (fun x => x < 256) && port < 2 ^ 16
  | .v6 ad port fl sc =>
    ad.length = 16 && ad.all (fun x => x < 256) && port < 2 ^ 16 &&
      fl < 2 ^ 32 && sc < 2 ^ 32
  | .unix (.path p) =>
    p.all (fun x => x < 256) && p.all (fun x => x ≠ 0) &&
      p.length ≤ pathCapP P - 1
  | .unix (.abstract a) =>
    P.hasAbstract && a.all (fun x => x < 256) &&
      a.length ≤ pathCapP P - 1 &&
      (a.isEmpty || a.head? = some 0)
  | .unspec => true

/-- Encode into the platform's scratch storage, then decode the encoded
bytes at the reported length. -/
def roundTrip (P : Platform) (a : SocketAddr) : CodecResult SocketAddr :=
  match write_sockaddr P (storageSize (isBsdStyle P.os)) a with
  | .ok out => read_sockaddr P out out.length
  | .fail e => .fail e

/-! ## The fd-forwarding layer (`src/io/fd.rs`)

The public functions of `io::fd` are generic over `Fd: AsFd` (and
`NewFd: IntoFd` for `dup2`) and call into `imp::syscalls`, whose body is
outside the excerpt; the syscall layer is therefore an abstract record
of functions.  Raw descriptors are `Nat`; `io::Result` outcomes are
`IoResult`; `DupFlags` is an opaque `Nat` bit value. -/

/-- An `io::Result`: a value or an OS error code. -/
inductive IoResult (α : Type) where
  | ok (a : α)
  | errno (e : Nat)
deriving DecidableEq, Repr

/-- The `AsFd` capability: borrow the raw descriptor. -/
structure AsFdInst (α : Type) where
  asFd : α → Nat

/-- The `IntoFd` capability: consume into the raw descriptor. -/
structure IntoFdInst (α : Type) where
  intoFd : α → Nat

/-- The `imp::syscalls` surface consumed by `io::fd` (abstract). -/
structure SyscallsImpl where
  ioctl_fionread : Nat → IoResult Nat
  isatty : Nat → Bool
  is_read_write : Nat → IoResult (Bool × Bool)
  dup : Nat → IoResult Nat
  dup2 : Nat → Nat → Nat → IoResult Nat

/-- `io::fd::ioctl_fionread` from the source: borrows the descriptor
and calls `imp::syscalls::ioctl_fionread`. -/
def fd_ioctl_fionread {α : Type} (S : SyscallsImpl) (A : AsFdInst α)
    (fd : α) : IoResult Nat :=
  let f := A.asFd fd
  S.ioctl_fionread f

/-- `io::fd::isatty` from the source. -/
def fd_isatty {α : Type} (S : SyscallsImpl) (A : AsFdInst α) (fd : α) :
    Bool :=
  let f := A.asFd fd
  S.isatty f

/-- `io::fd::is_read_write` from the source. -/
def fd_is_read_write {α : Type} (S : SyscallsImpl) (A : AsFdInst α)
    (fd : α) : IoResult (Bool × Bool) :=
  let f := A.asFd fd
  S.is_read_write f

/-- `io::fd::dup` from the source. -/
def fd_dup {α : Type} (S : SyscallsImpl) (A : AsFdInst α) (fd : α) :
    IoResult Nat :=
  let f := A.asFd fd
  S.dup f

/-- `io::fd::dup2` from the source: borrows `fd`, consumes `new`, and
calls `imp::syscalls::dup2`. -/
def fd_dup2 {α β : Type} (S : SyscallsImpl) (A : AsFdInst α)
    (B : IntoFdInst β) (fd : α) (new : β) (flags : Nat) : IoResult Nat :=
  let f := A.asFd fd
  let n := B.intoFd new
  S.dup2 f n flags

/-- The spec's description of `ioctl_fionread`: pure forwarding of the
borrowed descriptor to the syscall layer, result returned unchanged. -/
def forwards_ioctl_fionread {α : Type} (S : SyscallsImpl)
    (A : AsFdInst α) (fd : α) : IoResult Nat :=
  S.ioctl_fionread (A.asFd fd)

/-- The spec's description of `isatty`: pure forwarding. -/
def forwards_isatty {α : Type} (S : SyscallsImpl) (A : AsFdInst α)
    (fd : α) : Bool :=
  S.isatty (A.asFd fd)

/-- The spec's description of `is_read_write`: pure forwarding. -/
def forwards_is_read_write {α : Type} (S : SyscallsImpl)
    (A : AsFdInst α) (fd : α) : IoResult (Bool × Bool) :=
  S.is_read_write (A.asFd fd)

/-- The spec's description of `dup`: pure forwarding. -/
def forwards_dup {α : Type} (S : SyscallsImpl) (A : AsFdInst α)
    (fd : α) : IoResult Nat :=
  S.dup (A.asFd fd)

/-- The spec's description of `dup2`: pure forwarding of all three
arguments. -/
def forwards_dup2 {α β : Type} (S : SyscallsImpl) (A : AsFdInst α)
    (B : IntoFdInst β) (fd : α) (new : β) (flags : Nat) : IoResult Nat :=
  S.dup2 (A.asFd fd) (B.intoFd new) flags

/-- A concrete syscall record used to instantiate the forwarding
theorem at a closed input. -/
def sampleSyscalls : SyscallsImpl :=
  ⟨fun n => .ok (n + 40), fun n => n = 0, fun _ => .ok (true, false),
    fun n => .ok (n + 1), fun _ n _ => .ok n⟩

/-- The identity `AsFd` capability on raw descriptors. -/
def rawAsFd : AsFdInst Nat := ⟨fun n => n⟩

/-- The identity `IntoFd` capability on raw descriptors. -/
def rawIntoFd : IntoFdInst Nat := ⟨fun n => n⟩

/-! ## `GetRandomFlags` (`src/imp/libc/rand/types.rs`)

The source declares, on Linux, a `bitflags!` set over `u32` with
exactly the two constants `GRND_RANDOM` and `GRND_NONBLOCK` (the libc
values 0x0002 and 0x0001).  The definitions below embed the relevant
generated items of the `bitflags` 1.x macro: the checked constructor
`from_bits` (rejecting unknown bits), the truncating constructor, and
the set operations, all over `u32` modelled as `Nat` with a 32-bit
complement. -/

/-- Linux `GRND_NONBLOCK`. -/
def GRND_NONBLOCK : Nat := 1

/-- Linux `GRND_RANDOM`. -/
def GRND_RANDOM : Nat := 2

/-- The `GetRandomFlags` bitset (its backing `u32` bits). -/
structure GetRandomFlags where
  bits : Nat
deriving DecidableEq, Repr

/-- `GetRandomFlags::all().bits()`: the union of the declared flags. -/
def grndAll : Nat := GRND_RANDOM ||| GRND_NONBLOCK

/-- Bitwise complement within `u32`. -/
def not32 (n : Nat) : Nat := n ^^^ (2 ^ 32 - 1)

/-- The invariant: the value holds no bit outside the declared flags
(its bits are a subset of `all`'s). -/
def GetRandomFlags.wf (f : GetRandomFlags) : Prop :=
  f.bits &&& grndAll = f.bits

/-- `GetRandomFlags::empty()`. -/
def GetRandomFlags.empty : GetRandomFlags := ⟨0⟩

/-- `GetRandomFlags::all()`. -/
def GetRandomFlags.all : GetRandomFlags := ⟨grndAll⟩

/-- The `RANDOM` constant. -/
def GetRandomFlags.RANDOM : GetRandomFlags := ⟨GRND_RANDOM⟩

/-- The `NONBLOCK` constant. -/
def GetRandomFlags.NONBLOCK : GetRandomFlags := ⟨GRND_NONBLOCK⟩

/-- `GetRandomFlags::from_bits`: the checked constructor, rejecting any
input with a bit outside the declared flags. -/
def GetRandomFlags.from_bits (b : Nat) : Option GetRandomFlags :=
  if b &&& not32 grndAll = 0 then some ⟨b⟩ else none

/-- `GetRandomFlags::from_bits_truncate`. -/
def GetRandomFlags.from_bits_truncate (b : Nat) : GetRandomFlags :=
  ⟨b &&& grndAll⟩

/-- Set union (`|`, also `insert`). -/
def GetRandomFlags.union (f g : GetRandomFlags) : GetRandomFlags :=
  ⟨f.bits ||| g.bits⟩

/-- Set intersection (`&`). -/
def GetRandomFlags.inter (f g : GetRandomFlags) : GetRandomFlags :=
  ⟨f.bits &&& g.bits⟩

/-- `insert`: `self.bits |= other.bits`. -/
def GetRandomFlags.insert (f g : GetRandomFlags) : GetRandomFlags :=
  ⟨f.bits ||| g.bits⟩

/-- `remove`: `self.bits &= !other.bits`. -/
def GetRandomFlags.remove (f g : GetRandomFlags) : GetRandomFlags :=
  ⟨f.bits &&& not32 g.bits⟩

/-- `toggle`: `self.bits ^= other.bits`. -/
def GetRandomFlags.toggle (f g : GetRandomFlags) : GetRandomFlags :=
  ⟨f.bits ^^^ g.bits⟩

/-- `Not` (`!`): complement truncated to the declared flags. -/
def GetRandomFlags.complement (f : GetRandomFlags) : GetRandomFlags :=
  ⟨not32 f.bits &&& grndAll⟩

/-! ## Helper lemmas: layout constants evaluate -/

/-- Minimum family-field bytes is 2 on both layout families. -/
theorem famEnd_eq (b : Bool) : famEnd b = 2 := by cases b <;> rfl

/-- The structural `sun_path` offset is 2 on both layout families. -/
theorem sunPathOffsetB_eq (b : Bool) : sunPathOffsetB b = 2 := by
  cases b <;> rfl

/-- `sun_path` capacities of the two layout families. -/
theorem pathCapacityB_eq (b : Bool) :
    pathCapacityB b = if b then 104 else 108 := by cases b <;> rfl

/-- Total `sockaddr_un` sizes of the two layout families. -/
theorem sizeofSockaddrUn_eq (b : Bool) :
    sizeofSockaddrUn b = if b then 106 else 110 := by cases b <;> rfl

/-- Scratch storage sizes of the two layout families. -/
theorem storageSize_eq (b : Bool) :
    storageSize b = if b then 106 else 110 := by cases b <;> rfl

/-- The codec's path offset is 2 on every platform. -/
theorem pathOffsetP_eq (P : Platform) : pathOffsetP P = 2 := by
  unfold pathOffsetP; exact sunPathOffsetB_eq _

/-- The codec's path capacity per platform. -/
theorem pathCapP_eq (P : Platform) :
    pathCapP P = if isBsdStyle P.os then 104 else 108 := by
  unfold pathCapP; exact pathCapacityB_eq _

/-! ## Helper lemmas: write sequences -/

/-- Taking one element past a `set` splits off the written byte. -/
theorem set_take_succ :
    ∀ (b : List Nat) (o x : Nat), o < b.length →
      (b.set o x).take (o + 1) = b.take o ++ [x] := by
  intro b
  induction b with
  | nil => intro o x h; simp at h
  | cons y ys ih =>
    intro o x h
    cases o with
    | zero => simp
    | succ o =>
      simp only [List.set_cons_succ, List.take_succ_cons, List.cons_append]
      rw [ih o x (by simpa using h)]

/-- Dropping past a `set` position ignores the write. -/
theorem drop_set_of_lt :
    ∀ (b : List Nat) (o m x : Nat), o < m →
      (b.set o x).drop m = b.drop m := by
  intro b
  induction b with
  | nil => intro o m x _; simp
  | cons y ys ih =>
    intro o m x h
    cases o with
    | zero =>
      cases m with
      | zero => omega
      | succ m => simp
    | succ o =>
      cases m with
      | zero => omega
      | succ m =>
        simp only [List.set_cons_succ, List.drop_succ_cons]
        exact ih o m x (by omega)

/-- Applying consecutive writes starting at `o` overwrites exactly the
bytes `o..o + pb.length` with `pb`. -/
theorem applyWrites_pathWritesFrom :
    ∀ (pb : List Nat) (o : Nat) (b : List Nat), o + pb.length ≤ b.length →
      applyWrites (pathWritesFrom o pb) b =
        b.take o ++ pb ++ b.drop (o + pb.length) := by
  intro pb
  induction pb with
  | nil =>
    intro o b h
    simp only [pathWritesFrom, applyWrites, List.foldl_nil, List.length_nil,
      Nat.add_zero, List.append_nil]
    exact (List.take_append_drop o b).symm
  | cons x xs ih =>
    intro o b h
    show applyWrites (pathWritesFrom (o + 1) xs) (b.set o x) = _
    rw [ih (o + 1) (b.set o x)
      (by rw [List.length_set]; simp at h ⊢; omega)]
    rw [set_take_succ b o x (by simp at h; omega)]
    rw [drop_set_of_lt b o (o + 1 + xs.length) x (by omega)]
    have harith : o + 1 + xs.length = o + (x :: xs).length := by
      simp; omega
    rw [harith]
    simp [List.append_assoc]

/-- The family-field bytes occupy two bytes on either layout family. -/
theorem length_famFieldBytes (bsd : Bool) (v l : Nat) :
    (famFieldBytes bsd v l).length = 2 := by
  cases bsd <;> simp [famFieldBytes]

/-- Reading the family field back from an encoded buffer returns the
value written, for family values below 256. -/
theorem readFamB_famFieldBytes (bsd : Bool) (v l : Nat)
    (rest : List Nat) (hv : v < 256) :
    readFamB bsd (famFieldBytes bsd v l ++ rest) = v := by
  cases bsd <;> simp [readFamB, famFieldBytes] <;> omega

/-- `family_of` at the native values of the four variants. -/
theorem family_of_zero (P : Platform) : family_of P 0 = some .UNSPEC := by
  simp [family_of]

theorem family_of_one (P : Platform) : family_of P 1 = some .UNIX := by
  simp [family_of]

theorem family_of_two (P : Platform) : family_of P 2 = some .INET := by
  simp [family_of]

theorem family_of_inet6 (P : Platform) :
    family_of P P.af_inet6 = some .INET6 := by
  have h := P.af_inet6_gt
  unfold family_of
  rw [if_neg (by omega), if_neg (by omega), if_neg (by omega), if_pos rfl]

/-- On success, the write sequence of `encode_sockaddr_unix`, applied to
the zero-filled reported-length buffer, lays out the family-field bytes
followed by the name's wire bytes. -/
theorem encodeUnix_bytes (P : Platform) (n : SocketAddrUnix)
    (h : nameFits P n = true) :
    (encode_sockaddr_unix P n).err = none ∧
    (encode_sockaddr_unix P n).lenOut = 2 + (pathBytesOf P n).length ∧
    applyWrites (encode_sockaddr_unix P n).writes
        (List.replicate (encode_sockaddr_unix P n).lenOut 0) =
      famFieldBytes (isBsdStyle P.os) 1 (2 + (pathBytesOf P n).length) ++
        pathBytesOf P n := by
  unfold encode_sockaddr_unix
  rw [if_pos h, pathOffsetP_eq]
  refine ⟨rfl, rfl, ?_⟩
  set pb := pathBytesOf P n with hpb
  have hrep : List.replicate (2 + pb.length) (0 : Nat) =
      0 :: 0 :: List.replicate pb.length 0 := by
    rw [List.replicate_add]; rfl
  cases hB : isBsdStyle P.os with
  | false =>
    simp only [Bool.false_eq_true, if_false, hrep, applyWrites,
      List.foldl_append, List.foldl_cons, List.foldl_nil]
    show applyWrites (pathWritesFrom 2 pb)
        (((0 :: 0 :: List.replicate pb.length 0).set 0 1).set 1 0) =
      famFieldBytes false 1 (2 + pb.length) ++ pb
    have hset : ((0 :: 0 :: List.replicate pb.length 0).set 0 1).set 1 0 =
        1 :: 0 :: List.replicate pb.length 0 := by rfl
    rw [hset, applyWrites_pathWritesFrom pb 2
      (1 :: 0 :: List.replicate pb.length 0) (by simp; omega)]
    have hdrop : (1 :: 0 :: List.replicate pb.length 0).drop
        (2 + pb.length) = [] := by
      apply List.drop_eq_nil_of_le; simp; omega
    rw [hdrop]
    simp [famFieldBytes]
  | true =>
    simp only [if_true, hrep, applyWrites, List.foldl_append,
      List.foldl_cons, List.foldl_nil]
    show ((applyWrites (pathWritesFrom 2 pb)
        ((0 :: 0 :: List.replicate pb.length 0).set 1 1)).set 0
          ((2 + pb.length) % 256)) =
      famFieldBytes true 1 (2 + pb.length) ++ pb
    have hset : (0 :: 0 :: List.replicate pb.length 0).set 1 1 =
        0 :: 1 :: List.replicate pb.length 0 := by rfl
    rw [hset, applyWrites_pathWritesFrom pb 2
      (0 :: 1 :: List.replicate pb.length 0) (by simp; omega)]
    have hdrop : (0 :: 1 :: List.replicate pb.length 0).drop
        (2 + pb.length) = [] := by
      apply List.drop_eq_nil_of_le; simp; omega
    rw [hdrop]
    simp [famFieldBytes]

/-- Round-trip of the unspecified address on any platform. -/
theorem rt_unspec (P : Platform) : roundTrip P .unspec = .ok .unspec := by
  unfold roundTrip write_sockaddr
  cases hB : isBsdStyle P.os with
  | false =>
    simp only [native_value_of, famEnd_eq, famFieldBytes, Bool.false_eq_true,
      if_false]
    unfold read_sockaddr
    simp [readFamB, family_of_zero, hB, famEnd_eq]
  | true =>
    simp only [native_value_of, famEnd_eq, famFieldBytes, if_true]
    unfold read_sockaddr
    simp [readFamB, family_of_zero, hB, famEnd_eq]

/-- Round-trip of an IPv4 endpoint on any platform. -/
theorem rt_v4 (P : Platform) (ad : List Nat) (port : Nat)
    (hlen : ad.length = 4) (hport : port < 2 ^ 16) :
    roundTrip P (.v4 ad port) = .ok (.v4 ad port) := by
  have hw : write_sockaddr P (storageSize (isBsdStyle P.os)) (.v4 ad port)
      = .ok (famFieldBytes (isBsdStyle P.os) 2 16 ++ be16 port ++ ad ++
        List.replicate 8 0) := by
    unfold write_sockaddr
    rw [storageSize_eq]
    cases hB : isBsdStyle P.os <;> simp [native_value_of, sizeof_sockaddr_in]
  unfold roundTrip
  rw [hw]
  cases hB : isBsdStyle P.os with
  | false =>
    simp only [hB, famFieldBytes, be16, Bool.false_eq_true, if_false,
      List.cons_append, List.nil_append, List.append_assoc]
    unfold read_sockaddr
    simp only [List.take_length, famEnd_eq, hB, readFamB, List.getD_cons_zero,
      List.getD_cons_succ, List.length_cons, List.length_append, hlen,
      List.length_replicate]
    norm_num
    rw [family_of_two]
    have htake : List.take 4 (List.take 12 (ad ++ List.replicate 8 0)) = ad := by
      rw [List.take_take]
      norm_num
      exact List.take_left' hlen
    simp only [sizeof_sockaddr_in, htake, readBE16, List.drop_succ_cons,
      List.drop_zero]
    norm_num
    omega
  | true =>
    simp only [hB, famFieldBytes, be16, if_true,
      List.cons_append, List.nil_append, List.append_assoc]
    unfold read_sockaddr
    simp only [List.take_length, famEnd_eq, hB, readFamB, List.getD_cons_zero,
      List.getD_cons_succ, List.length_cons, List.length_append, hlen,
      List.length_replicate]
    norm_num
    rw [family_of_two]
    have htake : List.take 4 (List.take 12 (ad ++ List.replicate 8 0)) = ad := by
      rw [List.take_take]
      norm_num
      exact List.take_left' hlen
    simp only [sizeof_sockaddr_in, htake, readBE16, List.drop_succ_cons,
      List.drop_zero]
    norm_num
    omega

/-- Round-trip of an IPv6 endpoint on any platform. -/
theorem rt_v6 (P : Platform) (ad : List Nat) (port fl sc : Nat)
    (hlen : ad.length = 16) (hport : port < 2 ^ 16) (hfl : fl < 2 ^ 32)
    (hsc : sc < 2 ^ 32) :
    roundTrip P (.v6 ad port fl sc) = .ok (.v6 ad port fl sc) := by
  have hv : 2 < P.af_inet6 ∧ P.af_inet6 < 256 :=
    ⟨P.af_inet6_gt, P.af_inet6_lt⟩
  have hw : write_sockaddr P (storageSize (isBsdStyle P.os))
      (.v6 ad port fl sc)
      = .ok (famFieldBytes (isBsdStyle P.os) P.af_inet6 28 ++ be16 port ++
        be32 fl ++ ad ++ be32 sc) := by
    unfold write_sockaddr
    rw [storageSize_eq]
    cases hB : isBsdStyle P.os <;>
      simp [native_value_of, sizeof_sockaddr_in6]
  unfold roundTrip
  rw [hw]
  cases hB : isBsdStyle P.os with
  | false =>
    simp only [hB, famFieldBytes, be16, be32, Bool.false_eq_true, if_false,
      List.cons_append, List.nil_append, List.append_assoc]
    unfold read_sockaddr
    simp only [List.take_length, famEnd_eq, hB, readFamB, List.getD_cons_zero,
      List.getD_cons_succ, List.length_cons, List.length_append, hlen,
      List.length_replicate]
    norm_num
    rw [show P.af_inet6 % 256 + 256 * (P.af_inet6 / 256 % 256) = P.af_inet6
      by omega]
    rw [family_of_inet6]
    have htake : List.take 16 (List.take 20 (ad ++ be32 sc)) = ad := by
      rw [List.take_take]
      norm_num
      exact List.take_left' hlen
    have hd24 : List.drop 16 (List.take 20 (ad ++ be32 sc)) = be32 sc := by
      rw [List.drop_take, List.drop_left' hlen]
      simp [be32]
    simp only [be32] at htake hd24
    norm_num at htake hd24
    simp only [sizeof_sockaddr_in6, htake, hd24, readBE16, readBE32, be32,
      List.drop_succ_cons, List.drop_zero]
    norm_num
    omega
  | true =>
    simp only [hB, famFieldBytes, be16, be32, if_true,
      List.cons_append, List.nil_append, List.append_assoc]
    unfold read_sockaddr
    simp only [List.take_length, famEnd_eq, hB, readFamB, List.getD_cons_zero,
      List.getD_cons_succ, List.length_cons, List.length_append, hlen,
      List.length_replicate]
    norm_num
    rw [show P.af_inet6 % 256 = P.af_inet6 by omega]
    rw [family_of_inet6]
    have htake : List.take 16 (List.take 20 (ad ++ be32 sc)) = ad := by
      rw [List.take_take]
      norm_num
      exact List.take_left' hlen
    have hd24 : List.drop 16 (List.take 20 (ad ++ be32 sc)) = be32 sc := by
      rw [List.drop_take, List.drop_left' hlen]
      simp [be32]
    simp only [be32] at htake hd24
    norm_num at htake hd24
    simp only [sizeof_sockaddr_in6, htake, hd24, readBE16, readBE32, be32,
      List.drop_succ_cons, List.drop_zero]
    norm_num
    omega

/-- Unfold `roundTrip` over a successful encode. -/
theorem roundTrip_ok (P : Platform) (a : SocketAddr) (out : List Nat)
    (hw : write_sockaddr P (storageSize (isBsdStyle P.os)) a = .ok out) :
    roundTrip P a = read_sockaddr P out out.length := by
  unfold roundTrip
  rw [hw]

/-- Decoding an encoded Unix-domain buffer reduces to classifying the
path region. -/
theorem read_unix_encoded (P : Platform) (pb : List Nat)
    (hle : pb.length ≤ pathCapP P) :
    read_sockaddr P (famFieldBytes (isBsdStyle P.os) 1 (2 + pb.length) ++ pb)
      (famFieldBytes (isBsdStyle P.os) 1 (2 + pb.length) ++ pb).length =
    decodeUnixRegion P pb := by
  have hol : (famFieldBytes (isBsdStyle P.os) 1 (2 + pb.length) ++ pb).length
      = 2 + pb.length := by simp [length_famFieldBytes]
  unfold read_sockaddr
  rw [List.take_length, hol]
  rw [if_neg (by omega)]
  rw [famEnd_eq, if_neg (by omega)]
  rw [readFamB_famFieldBytes _ 1 _ pb (by norm_num)]
  rw [family_of_one]
  rw [pathOffsetP_eq, if_neg (by omega)]
  rw [List.drop_left' (length_famFieldBytes _ 1 (2 + pb.length))]
  rw [List.take_of_length_le hle]

/-- Round-trip of a nonempty filesystem-path name on any platform. -/
theorem rt_unix_path (P : Platform) (p : List Nat)
    (hb : ∀ x ∈ p, x ≠ 0) (hlen : p.length ≤ pathCapP P - 1) (hne : p ≠ []) :
    roundTrip P (.unix (.path p)) = .ok (.unix (.path p)) := by
  have hcapb : 104 ≤ pathCapP P ∧ pathCapP P ≤ 108 := by
    rw [pathCapP_eq]; cases isBsdStyle P.os <;> simp
  have hfits : nameFits P (.path p) = true := by
    simp only [nameFits, decide_eq_true_eq]
    cases P.needsTerm <;> simp <;> omega
  have hpb : (pathBytesOf P (.path p)).length ≤ pathCapP P := by
    cases ht : P.needsTerm <;> simp [pathBytesOf, ht] <;> omega
  have hst : storageSize (isBsdStyle P.os) = 2 + pathCapP P := by
    rw [storageSize_eq, pathCapP_eq]; cases isBsdStyle P.os <;> simp
  obtain ⟨he, hl, hby⟩ := encodeUnix_bytes P (.path p) hfits
  have hw : write_sockaddr P (storageSize (isBsdStyle P.os))
      (.unix (.path p))
      = .ok (famFieldBytes (isBsdStyle P.os) 1
          (2 + (pathBytesOf P (.path p)).length) ++ pathBytesOf P (.path p))
      := by
    unfold write_sockaddr
    simp only [he, hl]
    rw [if_neg (by omega)]
    rw [hl] at hby
    rw [hby]
  rw [roundTrip_ok P _ _ hw]
  rw [read_unix_encoded P (pathBytesOf P (.path p)) hpb]
  obtain ⟨q, p', rfl⟩ : ∃ q p', p = q :: p' := by
    cases p with
    | nil => exact absurd rfl hne
    | cons q p' => exact ⟨q, p', rfl⟩
  have hq : q ≠ 0 := hb q (by simp)
  cases ht : P.needsTerm with
  | false => simp [pathBytesOf, ht, decodeUnixRegion, hq, dropTrailingNul]
  | true =>
    simp only [pathBytesOf, ht, if_true, List.cons_append]
    simp only [decodeUnixRegion, hq, if_false]
    simp only [dropTrailingNul, ht, if_true]
    rw [show q :: (p' ++ [0]) = (q :: p') ++ [0] from by simp]
    rw [List.getLast?_concat, if_pos rfl, List.dropLast_concat]

/-- Round-trip of an abstract name on a platform that has the abstract
namespace. -/
theorem rt_unix_abstract (P : Platform) (a : List Nat)
    (habs : P.hasAbstract = true) (hlen : a.length ≤ pathCapP P - 1)
    (hhd : a = [] ∨ a.head? = some 0) :
    roundTrip P (.unix (.abstract a)) = .ok (.unix (.abstract a)) := by
  have hcapb : 104 ≤ pathCapP P ∧ pathCapP P ≤ 108 := by
    rw [pathCapP_eq]; cases isBsdStyle P.os <;> simp
  have hfits : nameFits P (.abstract a) = true := by
    simp only [nameFits, decide_eq_true_eq]
    omega
  have hpb : (pathBytesOf P (.abstract a)).length ≤ pathCapP P := by
    simp [pathBytesOf]; omega
  have hst : storageSize (isBsdStyle P.os) = 2 + pathCapP P := by
    rw [storageSize_eq, pathCapP_eq]; cases isBsdStyle P.os <;> simp
  obtain ⟨he, hl, hby⟩ := encodeUnix_bytes P (.abstract a) hfits
  have hw : write_sockaddr P (storageSize (isBsdStyle P.os))
      (.unix (.abstract a))
      = .ok (famFieldBytes (isBsdStyle P.os) 1
          (2 + (pathBytesOf P (.abstract a)).length) ++
            pathBytesOf P (.abstract a)) := by
    unfold write_sockaddr
    simp only [he, hl]
    rw [if_neg (by simp [pathBytesOf] at hpb ⊢; omega)]
    rw [hl] at hby
    rw [hby]
  rw [roundTrip_ok P _ _ hw]
  rw [read_unix_encoded P (pathBytesOf P (.abstract a)) hpb]
  cases a with
  | nil => simp [pathBytesOf, decodeUnixRegion, habs]
  | cons b rest =>
    have hb0 : b = 0 := by
      rcases hhd with h | h
      · exact absurd h (by simp)
      · simpa using h
    subst hb0
    simp [pathBytesOf, decodeUnixRegion, habs]


/-! ## Bit-level helpers for the flag-set invariant -/

/-- A bit of `x &&& y = 0` cannot be set in both operands. -/
theorem testBit_false_of_land_eq_zero {x y : Nat} (h : x &&& y = 0)
    {i : Nat} (hx : x.testBit i = true) : y.testBit i = false := by
  have hb := congrArg (fun n => Nat.testBit n i) h
  simp only [Nat.testBit_land, Nat.zero_testBit] at hb
  cases hy : y.testBit i
  · rfl
  · rw [hx, hy] at hb; simp at hb

/-- Bit-level consequence of a `&&&`-absorption equation. -/
theorem land_ext_bit {x y : Nat} (h : x &&& y = x) (i : Nat) :
    (x.testBit i && y.testBit i) = x.testBit i := by
  have hb := congrArg (fun n => Nat.testBit n i) h
  simpa [Nat.testBit_land] using hb

/-! ## The claims -/

/-- C1, counterexample: on the Linux platform the zero-length
filesystem-path name is representable, yet encoding it and decoding the
result yields the abstract name `[0]` — a successful decode of a
different value, which is not the failure the claim's sole exception
permits.  The claim's round-trip equation therefore fails at this
input. -/
theorem c1_empty_path_counterexample :
    representableB linuxP (.unix (.path [])) = true ∧
    roundTrip linuxP (.unix (.path [])) = .ok (.unix (.abstract [0])) ∧
    SocketAddr.unix (.abstract [0]) ≠ .unix (.path []) := by
  refine ⟨by decide, by decide, by decide⟩

/-- C1 (amended): for every representable typed address other than the
zero-length filesystem-path name, decoding the encoding yields the
address back on every platform; the zero-length path is excluded
because, on platforms with the abstract namespace or with a
null-terminator convention, its encoding decodes as an abstract name
(or fails), as the counterexample shows. -/
theorem c1_roundtrip_amended (P : Platform) (a : SocketAddr)
    (hrep : representableB P a = true) (hne : a ≠ .unix (.path [])) :
    roundTrip P a = .ok a := by
  match a with
  | .unspec => exact rt_unspec P
  | .v4 ad port =>
    simp only [representableB, Bool.and_eq_true, decide_eq_true_eq,
      List.all_eq_true] at hrep
    exact rt_v4 P ad port hrep.1.1 hrep.2
  | .v6 ad port fl sc =>
    simp only [representableB, Bool.and_eq_true, decide_eq_true_eq,
      List.all_eq_true] at hrep
    exact rt_v6 P ad port fl sc hrep.1.1.1.1 hrep.1.1.2 hrep.1.2 hrep.2
  | .unix (.path p) =>
    have hpne : p ≠ [] := by
      intro h
      exact hne (by rw [h])
    simp only [representableB, Bool.and_eq_true, decide_eq_true_eq,
      List.all_eq_true] at hrep
    exact rt_unix_path P p (fun x hx => hrep.1.2 x hx) hrep.2 hpne
  | .unix (.abstract a') =>
    simp only [representableB, Bool.and_eq_true, decide_eq_true_eq,
      List.all_eq_true, Bool.or_eq_true, List.isEmpty_iff] at hrep
    exact rt_unix_abstract P a' hrep.1.1.1 hrep.1.2 hrep.2

/-- Witness for C1: the amended round-trip at a concrete platform and a
concrete nonempty path. -/
theorem c1_roundtrip_amended_witness :
    roundTrip linuxP (.unix (.path [104, 105])) =
      .ok (.unix (.path [104, 105])) :=
  c1_roundtrip_amended linuxP (.unix (.path [104, 105])) (by decide)
    (by decide)

/-- C2: the decoder reads no byte at an index at or beyond
`min(claimed length, buffer capacity)` — its result depends only on the
first `min(len, buf.length)` bytes — and for any claimed length greater
than the buffer's capacity it fails with a truncation error. -/
theorem c2_truncation_safety (P : Platform) (buf : List Nat) (len : Nat) :
    read_sockaddr P buf len =
      read_sockaddr P (buf.take (min len buf.length)) len ∧
    (buf.length < len → read_sockaddr P buf len = .fail .truncation) := by
  constructor
  · rcases le_or_lt len buf.length with h | h
    · rw [min_eq_left h]
      have h1 : (buf.take len).length = len := by
        rw [List.length_take]; omega
      have h2 : (buf.take len).take len = buf.take len := by
        rw [List.take_take, min_self]
      unfold read_sockaddr
      rw [h1, h2]
      rw [if_neg (show ¬buf.length < len by omega)]
      rw [if_neg (show ¬len < len by omega)]
    · rw [min_eq_right (by omega), List.take_length]
  · intro h
    unfold read_sockaddr
    rw [if_pos h]

/-- Witness for C2: a claimed length of 5 against a one-byte buffer
fails with truncation. -/
theorem c2_truncation_safety_witness :
    read_sockaddr linuxP [0] 5 = .fail .truncation :=
  (c2_truncation_safety linuxP [0] 5).2 (by decide)

/-- C3: for every target and every struct base address (such that the
struct fits below the 64-bit address limit), the address-difference
computation of `offsetof_sun_path` returns exactly the structural byte
offset of the `sun_path` field. -/
theorem c3_offsetof_structural (os : TargetOs) (base : Nat)
    (h : base + sizeofSockaddrUn (isBsdStyle os) ≤ 2 ^ 64) :
    offsetof_sun_path os base = sunPathOffsetOf os := by
  unfold offsetof_sun_path sunPathOffsetOf
  rw [sunPathOffsetB_eq]
  show (base + 2) % 2 ^ 64 - base % 2 ^ 64 = 2
  rw [sizeofSockaddrUn_eq] at h
  have hsz : 106 ≤ (if isBsdStyle os then (106 : Nat) else 110) := by
    cases isBsdStyle os <;> simp
  omega

/-- Witness for C3: the offset computation at a concrete base address
on a concrete target. -/
theorem c3_offsetof_structural_witness :
    offsetof_sun_path .linux 1024 = sunPathOffsetOf .linux :=
  c3_offsetof_structural .linux 1024 (by decide)

/-- C4: the `sun_path` capacity is exactly 104 bytes on the five
BSD-style targets named by the source's `cfg` list and exactly 108
bytes on the other supported targets. -/
theorem c4_path_capacity :
    pathCapacityOf .netbsd = 104 ∧ pathCapacityOf .macos = 104 ∧
    pathCapacityOf .ios = 104 ∧ pathCapacityOf .freebsd = 104 ∧
    pathCapacityOf .openbsd = 104 ∧ pathCapacityOf .linux = 108 ∧
    pathCapacityOf .android = 108 ∧ pathCapacityOf .fuchsia = 108 ∧
    pathCapacityOf .emscripten = 108 ∧ pathCapacityOf .redox = 108 ∧
    pathCapacityOf .wasi = 108 := by decide

/-- C5, counterexample: the structurally computed `sun_path` offset is
2 on a BSD-style target (macos) and also 2 on a family-only target
(linux): the two layout families yield the same offset, not differing
ones as the claim states. -/
theorem c5_offset_equal_counterexample :
    sunPathOffsetOf .macos = 2 ∧ sunPathOffsetOf .linux = 2 ∧
    sunPathOffsetOf .macos = sunPathOffsetOf .linux := by decide

/-- C5 (amended): the one-byte length prefix plus one-byte family field
occupy exactly the same two bytes as the two-byte family field, so the
structurally computed `sun_path` offset is 2 on every supported target,
identical across the two layout families even though the fields
preceding the path differ. -/
theorem c5_offset_uniform (os : TargetOs) : sunPathOffsetOf os = 2 :=
  sunPathOffsetB_eq (isBsdStyle os)

/-- Witness for C5: the uniform offset at a concrete BSD-style
target. -/
theorem c5_offset_uniform_witness : sunPathOffsetOf .freebsd = 2 :=
  c5_offset_uniform .freebsd

/-- C6, counterexample: on macos (a BSD-style target) the `sun_family`
field sits at byte offset 1, after the one-byte `sun_len` field — not
at offset 0 as the claim states for every supported platform. -/
theorem c6_family_offset_counterexample :
    familyOffsetOf .macos = some 1 ∧ familyOffsetOf .macos ≠ some 0 := by
  decide

/-- C6 (amended): the family field is at byte offset 0 exactly on the
targets without a length-prefix byte; on the five BSD-style targets it
is at offset 1, preceded by the one-byte `sun_len` field at offset 0. -/
theorem c6_family_offset_amended :
    familyOffsetOf .linux = some 0 ∧ familyOffsetOf .android = some 0 ∧
    familyOffsetOf .fuchsia = some 0 ∧ familyOffsetOf .emscripten = some 0 ∧
    familyOffsetOf .redox = some 0 ∧ familyOffsetOf .wasi = some 0 ∧
    familyOffsetOf .netbsd = some 1 ∧ familyOffsetOf .macos = some 1 ∧
    familyOffsetOf .ios = some 1 ∧ familyOffsetOf .freebsd = some 1 ∧
    familyOffsetOf .openbsd = some 1 := by decide

/-- C7: `native_value_of` is total on the closed family enumeration
(it is a total function), and `family_of` maps each variant's native
value back to that variant on every platform. -/
theorem c7_family_roundtrip (P : Platform) (f : AddressFamily) :
    family_of P (native_value_of P f) = some f := by
  cases f
  · exact family_of_zero P
  · exact family_of_two P
  · exact family_of_inet6 P
  · exact family_of_one P

/-- Witness for C7: the family round-trip at the IPv6 variant on the
Linux platform. -/
theorem c7_family_roundtrip_witness :
    family_of linuxP (native_value_of linuxP .INET6) = some .INET6 :=
  c7_family_roundtrip linuxP .INET6

/-- C8: when the Unix-domain encoder fails with its length error, every
write it performed lies below the path-field offset — no path byte was
written — and the reported output length is left at its unset value 0. -/
theorem c8_no_partial_writes (P : Platform) (n : SocketAddrUnix)
    (h : (encode_sockaddr_unix P n).err ≠ none) :
    (∀ w ∈ (encode_sockaddr_unix P n).writes, w.1 < pathOffsetP P) ∧
    (encode_sockaddr_unix P n).lenOut = 0 := by
  rw [pathOffsetP_eq]
  cases hf : nameFits P n with
  | true =>
    exfalso
    apply h
    unfold encode_sockaddr_unix
    rw [hf]
    simp
  | false =>
    have he : encode_sockaddr_unix P n =
        ⟨if isBsdStyle P.os then [(1, 1)] else [(0, 1), (1, 0)], 0,
          some .invalidName⟩ := by
      unfold encode_sockaddr_unix
      rw [hf]
      simp
    rw [he]
    refine ⟨?_, rfl⟩
    intro w hw
    cases hB : isBsdStyle P.os <;> rw [hB] at hw <;> simp at hw
    · rcases hw with h1 | h1 <;> rw [h1] <;> decide
    · rw [hw]; decide

set_option maxRecDepth 2000 in
/-- Witness for C8: encoding a 120-byte path on Linux fails, with only
sub-path-offset writes performed and the length out-value still 0. -/
theorem c8_no_partial_writes_witness :
    (∀ w ∈ (encode_sockaddr_unix linuxP
        (.path (List.replicate 120 97))).writes,
      w.1 < pathOffsetP linuxP) ∧
    (encode_sockaddr_unix linuxP (.path (List.replicate 120 97))).lenOut
      = 0 :=
  c8_no_partial_writes linuxP (.path (List.replicate 120 97)) (by decide)

/-- C9: each public fd-layer function (`dup`, `dup2`, `isatty`,
`ioctl_fionread`, `is_read_write`) forwards its arguments, after the
`AsFd`/`IntoFd` borrow conversions the source performs, unchanged to
the corresponding `imp::syscalls` function and returns that function's
result unchanged. -/
theorem c9_fd_forwarding {α β : Type} (S : SyscallsImpl) (A : AsFdInst α)
    (B : IntoFdInst β) (fd : α) (new : β) (flags : Nat) :
    fd_ioctl_fionread S A fd = forwards_ioctl_fionread S A fd ∧
    fd_isatty S A fd = forwards_isatty S A fd ∧
    fd_is_read_write S A fd = forwards_is_read_write S A fd ∧
    fd_dup S A fd = forwards_dup S A fd ∧
    fd_dup2 S A B fd new flags = forwards_dup2 S A B fd new flags :=
  ⟨rfl, rfl, rfl, rfl, rfl⟩

/-- Witness for C9: the forwarding equations at a concrete syscall
record and descriptor. -/
theorem c9_fd_forwarding_witness :
    fd_dup sampleSyscalls rawAsFd 3 = forwards_dup sampleSyscalls rawAsFd 3
    :=
  (c9_fd_forwarding sampleSyscalls rawAsFd rawIntoFd 3 4 0).2.2.2.1

/-- C10: `GetRandomFlags` values hold only the `GRND_RANDOM` and
`GRND_NONBLOCK` bits: the checked constructor rejects any `u32` with
another bit set (yielding `none`), every constructor yields a
well-formed value, and every set operation preserves the invariant. -/
theorem c10_flags_invariant :
    (∀ b : Nat, b &&& not32 grndAll ≠ 0 →
      GetRandomFlags.from_bits b = none) ∧
    (∀ b : Nat, b < 2 ^ 32 → ∀ f : GetRandomFlags,
      GetRandomFlags.from_bits b = some f → f.wf) ∧
    GetRandomFlags.empty.wf ∧ GetRandomFlags.all.wf ∧
    GetRandomFlags.RANDOM.wf ∧ GetRandomFlags.NONBLOCK.wf ∧
    (∀ b : Nat, (GetRandomFlags.from_bits_truncate b).wf) ∧
    (∀ f g : GetRandomFlags, f.wf → g.wf →
      (f.union g).wf ∧ (f.inter g).wf ∧ (f.insert g).wf ∧
      (f.remove g).wf ∧ (f.toggle g).wf) ∧
    (∀ f : GetRandomFlags, f.complement.wf) := by
  refine ⟨?_, ?_, by show (0 : Nat) &&& grndAll = 0; decide,
    by show grndAll &&& grndAll = grndAll; decide,
    by show GRND_RANDOM &&& grndAll = GRND_RANDOM; decide,
    by show GRND_NONBLOCK &&& grndAll = GRND_NONBLOCK; decide, ?_, ?_, ?_⟩
  · intro b hb
    unfold GetRandomFlags.from_bits
    rw [if_neg hb]
  · intro b hb32 f h
    unfold GetRandomFlags.from_bits at h
    by_cases hc : b &&& not32 grndAll = 0
    · rw [if_pos hc] at h
      obtain rfl : f = ⟨b⟩ := by cases h; rfl
      show b &&& grndAll = b
      apply Nat.eq_of_testBit_eq
      intro i
      rw [Nat.testBit_land]
      cases hbb : b.testBit i
      · simp
      · have hi : i < 32 := by
          by_contra hge
          have hlt : b < 2 ^ i :=
            lt_of_lt_of_le hb32 (Nat.pow_le_pow_right (by norm_num)
              (by omega))
          rw [Nat.testBit_lt_two_pow hlt] at hbb
          cases hbb
        have hM := testBit_false_of_land_eq_zero hc hbb
        rw [not32, Nat.testBit_xor, Nat.testBit_two_pow_sub_one] at hM
        simp only [hi, decide_True] at hM
        cases hg : Nat.testBit grndAll i
        · rw [hg] at hM; simp at hM
        · simp
    · rw [if_neg hc] at h; cases h
  · intro b
    show b &&& grndAll &&& grndAll = b &&& grndAll
    rw [Nat.and_assoc]
    apply Nat.eq_of_testBit_eq
    intro i
    simp [Nat.testBit_land, Bool.and_assoc, Bool.and_self]
  · intro f g hf hg
    refine ⟨?_, ?_, ?_, ?_, ?_⟩ <;>
      apply Nat.eq_of_testBit_eq <;> intro i <;>
      have hfi := land_ext_bit hf i <;> have hgi := land_ext_bit hg i <;>
      simp only [GetRandomFlags.union, GetRandomFlags.inter,
        GetRandomFlags.insert, GetRandomFlags.remove, GetRandomFlags.toggle,
        Nat.testBit_land, Nat.testBit_lor, Nat.testBit_xor] <;>
      cases hfb : f.bits.testBit i <;> cases hgb : g.bits.testBit i <;>
      cases htb : Nat.testBit grndAll i <;> simp_all
  · intro f
    show not32 f.bits &&& grndAll &&& grndAll = not32 f.bits &&& grndAll
    rw [Nat.and_assoc]
    apply Nat.eq_of_testBit_eq
    intro i
    simp [Nat.testBit_land, Bool.and_assoc, Bool.and_self]

/-- Witness for C10: the checked constructor rejects bit 2, and a union
of the two constants is well-formed. -/
theorem c10_flags_invariant_witness :
    GetRandomFlags.from_bits 4 = none ∧
    (GetRandomFlags.union ⟨2⟩ ⟨1⟩).wf :=
  ⟨c10_flags_invariant.1 4 (by decide),
    (c10_flags_invariant.2.2.2.2.2.2.2.1 ⟨2⟩ ⟨1⟩
      (by show (2 : Nat) &&& grndAll = 2; decide)
      (by show (1 : Nat) &&& grndAll = 1; decide)).1⟩
